import Mathlib

/-!
Verification of the core transcription pipeline of `parakeet_transcribe.py`:
the sentence segmenter `tokens_to_sentences`, the chunk-window loop and the
overlap-filter stitching inside `transcribe_with_chunking`.

Timestamps and durations (Python floats) are modelled as rationals `ℚ`;
sample counts and strides (Python ints) as `Int`/`Nat`.  A failure raised by
the Python runtime (e.g. `ValueError` from `range(0, n, 0)`) is modelled with
`Except PyErr`.  The external recognizer is a parameter: a function from the
sample range `(start, end)` of a chunk to its result, which is either a token
stream with per-token timestamps or a plain text blob (the duck-typed
`hasattr` branching in the source).
-/

/-- A sentence record `{text, start, end}` as produced by
`tokens_to_sentences`.  The field `stop` models the Python key `end`
(`end` is a Lean keyword). -/
structure Sentence where
  text : String
  start : ℚ
  stop : ℚ
deriving DecidableEq, Repr

/-- Result of one recognizer call: either tokens with timestamps
(`hasattr(result, 'tokens') and hasattr(result, 'timestamps')`) or a plain
text blob. -/
inductive RecResult where
  | timed (tokens : List String) (timestamps : List ℚ) : RecResult
  | plain (text : String) : RecResult
deriving DecidableEq, Repr

/-- A Python runtime error surfaced by the pipeline.  `valueError` models the
`ValueError` raised by `range(0, n, 0)` when the step is zero. -/
inductive PyErr where
  | valueError : PyErr
deriving DecidableEq, Repr

/-- The constant `SAMPLE_RATE = 16000` from the source. -/
def SAMPLE_RATE : ℕ := 16000

/-- Python `int(q)`: truncation toward zero. -/
def pyInt (q : ℚ) : Int := q.num.tdiv (q.den : Int)

/-- Python `s.strip()`: remove leading and trailing whitespace.  Implemented
structurally on the character list so that the kernel can evaluate it. -/
def pyStrip (s : String) : String :=
  String.mk (((s.data.dropWhile Char.isWhitespace).reverse.dropWhile
      Char.isWhitespace).reverse)

/-- Python `s.endswith(p)`: the character list of `p` is a suffix of that of
`s`.  Implemented structurally so that the kernel can evaluate it. -/
def pyEndsWith (s p : String) : Bool :=
  p.data.reverse.isPrefixOf s.data.reverse

/-- The set `sentence_end_puncts` of the source, `'.'`, `'!'` and `'?'` (a set iterated
by `any`, so list order is irrelevant). -/
def sentence_end_puncts : List String := [".", "!", "?"]

/-- The test `any(token.strip().endswith(p) for p in sentence_end_puncts)`. -/
def is_sentence_end (token : String) : Bool :=
  sentence_end_puncts.any (fun p => pyEndsWith (pyStrip token) p)

/-- The body of the `for i, (token, ts) in enumerate(zip(tokens, timestamps))`
loop of `tokens_to_sentences`, as a recursion over the zipped list carrying
the enumeration index `i`, the pending accumulator `current_tokens` and
`current_start`.  `ntokens = len(tokens)` is used for the `is_last_token`
test and `timestamps` is kept whole for the random accesses
`timestamps[i + 1]`. -/
def tts_loop (ntokens : Nat) (timestamps : List ℚ) :
    List (String × ℚ) → Nat → List String → ℚ → List Sentence
  | [], _, _, _ => []
  | (token, ts) :: rest, i, current_tokens, current_start =>
    let current_tokens2 := current_tokens ++ [token]
    if is_sentence_end token || (i == ntokens - 1) then
      let current_end : ℚ :=
        match timestamps[i + 1]? with
        | some t => t
        | none => ts + 0.16
      let text := pyStrip (String.join current_tokens2)
      let current_start2 : ℚ :=
        match timestamps[i + 1]? with
        | some t => t
        | none => current_start
      (if text = "" then [] else [{ text := text, start := current_start, stop := current_end }])
        ++ tts_loop ntokens timestamps rest (i + 1) [] current_start2
    else
      tts_loop ntokens timestamps rest (i + 1) current_tokens2 current_start

/-- The function `tokens_to_sentences(tokens, timestamps)` from the source: group tokens
into sentences based on punctuation. -/
def tokens_to_sentences (tokens : List String) (timestamps : List ℚ) : List Sentence :=
  if tokens.isEmpty || timestamps.isEmpty then []
  else tts_loop tokens.length timestamps (tokens.zip timestamps) 0 [] (timestamps.headD 0)

example :
    tokens_to_sentences ["Hello", " world.", " How", " are", " you?"]
      [0, 0.3, 0.9, 1.1, 1.3]
      = [{ text := "Hello world.", start := 0, stop := 0.9 },
         { text := "How are you?", start := 0.9, stop := 1.46 }] := by
  norm_num +decide [tokens_to_sentences, tts_loop, is_sentence_end, sentence_end_puncts,
    pyStrip, pyEndsWith, String.join, Sentence.mk.injEq]

/-- Python `range(0, stop, step)` (`stop : ℕ` is `total_samples`, `step` is
`stride`): raises `ValueError` when the step is zero, is empty for a negative
step, and otherwise lists `k * step` for `k < ⌈stop / step⌉`. -/
def pyRange0 (stop : Nat) (step : Int) : Except PyErr (List Int) :=
  if step = 0 then .error .valueError
  else if step < 0 then .ok []
  else .ok ((List.range ((stop + step.toNat - 1) / step.toNat)).map
      (fun k : Nat => (k : Int) * step))

/-- The windows `(start, end)` actually visited by the
`for start in range(0, total_samples, stride)` loop of
`transcribe_with_chunking`, with `end = min(start + chunk_samples,
total_samples)` and the `if end >= total_samples: break` exit. -/
def visitedWindows (total : Nat) (chunk : Int) : List Int → List (Int × Int)
  | [] => []
  | s :: rest =>
    let e := min (s + chunk) (total : Int)
    if (total : Int) ≤ e then [(s, e)]
    else (s, e) :: visitedWindows total chunk rest

/-- The filtering loop over `zip(result.tokens, adjusted_timestamps)`:
keep a pair exactly when `ts >= overlap_end or ts > last_prev_time`. -/
def acceptedPairs (overlap_end last_prev_time : ℚ) (pairs : List (String × ℚ)) :
    List (String × ℚ) :=
  pairs.filter (fun p => overlap_end ≤ p.2 || last_prev_time < p.2)

/-- Processing of one window's recognizer result inside the chunked loop of
`transcribe_with_chunking` (lines 145-163 of the source): shift the
timestamps by `chunk_start`, and either append everything (first window, or
empty running stream), append the overlap-filtered pairs, or — when the
result lacks token/timestamp attributes — leave the running stream
`(all_tokens, all_timestamps)` unchanged. -/
def stitchWindow (result : RecResult) (chunk_start overlap_duration : ℚ)
    (chunk_idx : Nat) (st : List String × List ℚ) : List String × List ℚ :=
  match result with
  | .timed rtokens rtimestamps =>
    let adjusted_timestamps := rtimestamps.map (fun ts => ts + chunk_start)
    if 0 < chunk_idx ∧ st.2 ≠ [] then
      let last_prev_time := st.2.getLastD 0
      let overlap_end := chunk_start + overlap_duration
      let acc := acceptedPairs overlap_end last_prev_time
          (rtokens.zip adjusted_timestamps)
      (st.1 ++ acc.map Prod.fst, st.2 ++ acc.map Prod.snd)
    else
      (st.1 ++ rtokens, st.2 ++ adjusted_timestamps)
  | .plain _ => st

/-- The chunked `for start in range(0, total_samples, stride)` loop of
`transcribe_with_chunking`, over the precomputed list of range values:
each iteration computes `end`, calls the recognizer on the chunk, folds the
result into the running stream and breaks after the first window whose
`end >= total_samples`.  The recognizer is abstracted as a function of the
chunk's sample range. -/
def chunkLoop (recog : Int → Int → RecResult) (total : Nat) (chunk : Int)
    (overlap_duration : ℚ) :
    List Int → Nat → List String × List ℚ → List String × List ℚ
  | [], _, st => st
  | s :: rest, chunk_idx, st =>
    let e := min (s + chunk) (total : Int)
    let st2 := stitchWindow (recog s e) ((s : ℚ) / (SAMPLE_RATE : ℚ))
        overlap_duration chunk_idx st
    if (total : Int) ≤ e then st2
    else chunkLoop recog total chunk overlap_duration rest (chunk_idx + 1) st2

/-- The function `transcribe_with_chunking(asr, audio_path, chunk_duration,
overlap_duration)` from the source, with audio decoding abstracted to the
sample count `totalSamples` and the recognizer abstracted to a function
`recog` of the chunk's sample range (`recog 0 totalSamples` is the
whole-audio call of the short-file path). -/
def transcribe_with_chunking (recog : Int → Int → RecResult) (totalSamples : Nat)
    (chunk_duration overlap_duration : ℚ) : Except PyErr (List Sentence) :=
  let duration : ℚ := (totalSamples : ℚ) / (SAMPLE_RATE : ℚ)
  if duration ≤ chunk_duration then
    match recog 0 (totalSamples : Int) with
    | .timed tokens timestamps => .ok (tokens_to_sentences tokens timestamps)
    | .plain text => .ok [{ text := text, start := 0, stop := duration }]
  else
    let chunk_samples : Int := pyInt (chunk_duration * (SAMPLE_RATE : ℚ))
    let overlap_samples : Int := pyInt (overlap_duration * (SAMPLE_RATE : ℚ))
    let stride : Int := chunk_samples - overlap_samples
    match pyRange0 totalSamples stride with
    | .error e => .error e
    | .ok starts =>
      let st := chunkLoop recog totalSamples chunk_samples overlap_duration
          starts 0 ([], [])
      .ok (tokens_to_sentences st.1 st.2)

/-! ### Helper lemmas about the stitcher -/

theorem getLastD_eq_getLast (l : List ℚ) (h : l ≠ []) :
    l.getLastD 0 = l.getLast h := by
  rw [List.getLastD_eq_getLast?, List.getLast?_eq_getLast l h, Option.getD_some]

theorem mem_acceptedPairs (overlap_end last_prev_time : ℚ)
    (pairs : List (String × ℚ)) (tok : String) (ts : ℚ) :
    (tok, ts) ∈ acceptedPairs overlap_end last_prev_time pairs
      ↔ (tok, ts) ∈ pairs ∧ (overlap_end ≤ ts ∨ last_prev_time < ts) := by
  simp [acceptedPairs, List.mem_filter]

theorem stitchWindow_timed (rtokens : List String) (rtimestamps : List ℚ)
    (chunk_start overlap_duration : ℚ) (chunk_idx : Nat)
    (all_tokens : List String) (all_timestamps : List ℚ)
    (h1 : 0 < chunk_idx) (h2 : all_timestamps ≠ []) :
    stitchWindow (RecResult.timed rtokens rtimestamps) chunk_start
        overlap_duration chunk_idx (all_tokens, all_timestamps)
      = (all_tokens ++ (acceptedPairs (chunk_start + overlap_duration)
            (all_timestamps.getLast h2)
            (rtokens.zip (rtimestamps.map (fun ts => ts + chunk_start)))).map Prod.fst,
         all_timestamps ++ (acceptedPairs (chunk_start + overlap_duration)
            (all_timestamps.getLast h2)
            (rtokens.zip (rtimestamps.map (fun ts => ts + chunk_start)))).map Prod.snd) := by
  rw [stitchWindow, if_pos ⟨h1, h2⟩]
  rw [show (all_tokens, all_timestamps).2.getLastD 0 = all_timestamps.getLast h2 from
    getLastD_eq_getLast all_timestamps h2]

/-- C1: for a window after the first (`chunk_idx > 0`) with a non-empty
running stream, writing `overlap_cutoff = chunk_start + overlap_duration` and
`last_accepted_time` for the last timestamp of the running stream, a token of
the window is appended to the running stream if and only if its shifted
global timestamp is `≥ overlap_cutoff` or strictly greater than
`last_accepted_time`; the accepted pairs are appended in their original
window order (a sublist of the window's zipped stream), rejected tokens are
simply absent, and the acceptance test depends only on the timestamp, never
on the token text. -/
theorem claim_C1_stitcher (rtokens : List String) (rtimestamps : List ℚ)
    (chunk_start overlap_duration : ℚ) (chunk_idx : Nat)
    (all_tokens : List String) (all_timestamps : List ℚ)
    (h1 : 0 < chunk_idx) (h2 : all_timestamps ≠ []) :
    stitchWindow (RecResult.timed rtokens rtimestamps) chunk_start
        overlap_duration chunk_idx (all_tokens, all_timestamps)
      = (all_tokens ++ (acceptedPairs (chunk_start + overlap_duration)
            (all_timestamps.getLast h2)
            (rtokens.zip (rtimestamps.map (fun ts => ts + chunk_start)))).map Prod.fst,
         all_timestamps ++ (acceptedPairs (chunk_start + overlap_duration)
            (all_timestamps.getLast h2)
            (rtokens.zip (rtimestamps.map (fun ts => ts + chunk_start)))).map Prod.snd)
    ∧ (∀ (tok : String) (ts : ℚ),
        (tok, ts) ∈ acceptedPairs (chunk_start + overlap_duration)
            (all_timestamps.getLast h2)
            (rtokens.zip (rtimestamps.map (fun ts => ts + chunk_start)))
          ↔ (tok, ts) ∈ rtokens.zip (rtimestamps.map (fun ts => ts + chunk_start))
              ∧ (chunk_start + overlap_duration ≤ ts
                  ∨ all_timestamps.getLast h2 < ts))
    ∧ (acceptedPairs (chunk_start + overlap_duration) (all_timestamps.getLast h2)
          (rtokens.zip (rtimestamps.map (fun ts => ts + chunk_start)))).Sublist
        (rtokens.zip (rtimestamps.map (fun ts => ts + chunk_start)))
    ∧ (∀ (tok1 tok2 : String) (ts : ℚ) (cutoff last_accepted : ℚ),
        acceptedPairs cutoff last_accepted [(tok1, ts)] = []
          ↔ acceptedPairs cutoff last_accepted [(tok2, ts)] = []) := by
  refine ⟨stitchWindow_timed rtokens rtimestamps chunk_start overlap_duration
      chunk_idx all_tokens all_timestamps h1 h2,
    fun tok ts => mem_acceptedPairs _ _ _ tok ts,
    List.filter_sublist _, ?_⟩
  intro tok1 tok2 ts cutoff last_accepted
  simp [acceptedPairs]

/-- Witness for C1 at a concrete window: both timestamp tests fail, so the
token is rejected and the running stream is unchanged. -/
theorem claim_C1_stitcher_witness :
    stitchWindow (RecResult.timed ["a"] [5]) 100 15 1 (["z"], [110])
      = (["z"], [110]) := by
  have h := (claim_C1_stitcher ["a"] [5] 100 15 1 ["z"] [110]
      (by norm_num) (by simp)).1
  rw [h]
  norm_num [acceptedPairs]

/-- Recognizer used to refute C4: the first window reports a timestamp past
the nominal overlap region (global time 125 inside the window `[0, 120s)`),
the second window (`chunk_start = 105`) reports a window-relative timestamp
16, i.e. global time 121. -/
def recogC4 : Int → Int → RecResult :=
  fun s _ => if s = 0 then RecResult.timed ["a"] [125] else RecResult.timed ["b"] [16]

/-- Counterexample to C4: with `chunk_duration = 120`, `overlap_duration =
15` and a 187.5-second file (3000000 samples, stride 1680000 > 0), the
second window's token `"b"` has shifted global timestamp `121 < 125 =
last_accepted_time`, yet it IS appended to the running stream, because `121 ≥
overlap_cutoff = 105 + 15`.  Both the single stitching step and the full
pipeline run are computed. -/
theorem claim_C4_counterexample :
    stitchWindow (RecResult.timed ["b"] [16]) 105 15 1 (["a"], [125])
        = (["a", "b"], [125, 121])
    ∧ (121 : ℚ) < 125
    ∧ chunkLoop recogC4 3000000 1920000 15 [0, 1680000] 0 ([], [])
        = (["a", "b"], [125, 121])
    ∧ transcribe_with_chunking recogC4 3000000 120 15
        = .ok [{ text := "ab", start := 125, stop := 121.16 }] := by
  refine ⟨?_, by norm_num, ?_, ?_⟩
  · norm_num +decide [stitchWindow, acceptedPairs]
  · norm_num +decide [chunkLoop, stitchWindow, acceptedPairs, recogC4, SAMPLE_RATE]
  · norm_num +decide [transcribe_with_chunking, pyInt, pyRange0, SAMPLE_RATE,
      chunkLoop, stitchWindow, acceptedPairs, recogC4, tokens_to_sentences,
      tts_loop, is_sentence_end, sentence_end_puncts, pyStrip, pyEndsWith, String.join]

/-- C4 amended: a token of a later window whose shifted global timestamp is
strictly below `last_accepted_time` is rejected provided the timestamp is
also strictly below the overlap cutoff; a timestamp at or above the cutoff is
accepted even when it is below `last_accepted_time`. -/
theorem claim_C4_amended (rtokens : List String) (rtimestamps : List ℚ)
    (chunk_start overlap_duration : ℚ) (chunk_idx : Nat)
    (all_tokens : List String) (all_timestamps : List ℚ)
    (tok : String) (ts : ℚ)
    (h1 : 0 < chunk_idx) (h2 : all_timestamps ≠ [])
    (hlt : ts < all_timestamps.getLast h2)
    (hcut : ts < chunk_start + overlap_duration) :
    (tok, ts) ∉ acceptedPairs (chunk_start + overlap_duration)
        (all_timestamps.getLast h2)
        (rtokens.zip (rtimestamps.map (fun t => t + chunk_start)))
    ∧ (stitchWindow (RecResult.timed rtokens rtimestamps) chunk_start
          overlap_duration chunk_idx (all_tokens, all_timestamps)).2
        = all_timestamps ++ (acceptedPairs (chunk_start + overlap_duration)
            (all_timestamps.getLast h2)
            (rtokens.zip (rtimestamps.map (fun t => t + chunk_start)))).map Prod.snd := by
  constructor
  · intro hmem
    rcases (mem_acceptedPairs _ _ _ _ _).mp hmem with ⟨-, hacc⟩
    rcases hacc with hge | hgt
    · exact absurd hge (not_le.mpr hcut)
    · exact absurd hgt (not_lt.mpr hlt.le)
  · rw [stitchWindow_timed rtokens rtimestamps chunk_start overlap_duration
        chunk_idx all_tokens all_timestamps h1 h2]

/-- Witness for the amended C4 at the same concrete window geometry, with a
token strictly inside both the overlap region and the already-accepted span:
it is rejected and the timestamp stream is unchanged. -/
theorem claim_C4_amended_witness :
    ("c", (112 : ℚ)) ∉ acceptedPairs (105 + 15) (List.getLast [125] (by simp))
        (["c"].zip ([7].map (fun t => t + 105)))
    ∧ (stitchWindow (RecResult.timed ["c"] [7]) 105 15 1 (["a"], [125])).2
        = [125] ++ (acceptedPairs (105 + 15) (List.getLast [125] (by simp))
            (["c"].zip ([7].map (fun t => t + 105)))).map Prod.snd := by
  exact claim_C4_amended ["c"] [7] 105 15 1 ["a"] [125] "c" 112
    (by norm_num) (by simp) (by norm_num [List.getLast]) (by norm_num)

theorem pyRange0_of_neg (stop : Nat) (step : Int) (h : step < 0) :
    pyRange0 stop step = .ok [] := by
  unfold pyRange0
  rw [if_neg (by omega), if_pos h]

theorem pyRange0_of_zero (stop : Nat) : pyRange0 stop 0 = .error .valueError := by
  unfold pyRange0
  rw [if_pos rfl]

/-- Counterexample to C6: `chunk_duration = 10`, `overlap_duration = 20`
gives `stride = 160000 - 320000 < 0` on a 20-second file (320000 samples,
longer than one chunk), yet the pipeline does not fail at all: `range(0,
total_samples, stride)` is simply empty for a negative step, so the run
returns an empty sentence list successfully. -/
theorem claim_C6_counterexample :
    transcribe_with_chunking (fun _ _ => RecResult.plain "x") 320000 10 20
      = .ok [] := by
  norm_num +decide [transcribe_with_chunking, pyInt, pyRange0, SAMPLE_RATE,
    chunkLoop, tokens_to_sentences]

/-- C6 amended: there is no `ConfigError`.  On the chunked path, a strictly
negative stride makes the window loop iterate zero times, so the pipeline
silently returns an empty sentence list; only a stride of exactly zero
fails, with the `ValueError` that Python's `range` raises for a zero step
(and that only after the audio has already been loaded). -/
theorem claim_C6_amended (recog : Int → Int → RecResult) (totalSamples : Nat)
    (cd od : ℚ) (hd : ¬ ((totalSamples : ℚ) / (SAMPLE_RATE : ℚ) ≤ cd)) :
    (pyInt (cd * (SAMPLE_RATE : ℚ)) - pyInt (od * (SAMPLE_RATE : ℚ)) < 0 →
      transcribe_with_chunking recog totalSamples cd od = .ok [])
    ∧ (pyInt (cd * (SAMPLE_RATE : ℚ)) - pyInt (od * (SAMPLE_RATE : ℚ)) = 0 →
      transcribe_with_chunking recog totalSamples cd od = .error .valueError) := by
  constructor
  · intro hneg
    simp only [transcribe_with_chunking, if_neg hd]
    rw [pyRange0_of_neg _ _ hneg]
    simp [chunkLoop, tokens_to_sentences]
  · intro hzero
    simp only [transcribe_with_chunking, if_neg hd]
    rw [hzero, pyRange0_of_zero]

/-- Witness for the amended C6 at the concrete configuration of the
counterexample scenario (negative stride) and at an equal chunk/overlap
configuration (zero stride). -/
theorem claim_C6_amended_witness :
    transcribe_with_chunking (fun _ _ => RecResult.plain "y") 320000 10 20 = .ok []
    ∧ transcribe_with_chunking (fun _ _ => RecResult.plain "y") 320000 10 10
      = .error .valueError := by
  constructor
  · exact (claim_C6_amended (fun _ _ => RecResult.plain "y") 320000 10 20
      (by norm_num [SAMPLE_RATE])).1 (by norm_num [pyInt, SAMPLE_RATE])
  · exact (claim_C6_amended (fun _ _ => RecResult.plain "y") 320000 10 10
      (by norm_num [SAMPLE_RATE])).2 (by norm_num [pyInt, SAMPLE_RATE])

/-- Counterexample to C7: a zero-length input (duration `0`, which the claim
says must fail with `InvalidAudioError`) is processed through the short-file
path and produces ordinary output with no error. -/
theorem claim_C7_counterexample :
    transcribe_with_chunking (fun _ _ => RecResult.timed ["Hi."] [0]) 0 120 15
      = .ok [{ text := "Hi.", start := 0, stop := 0.16 }] := by
  norm_num +decide [transcribe_with_chunking, SAMPLE_RATE, tokens_to_sentences,
    tts_loop, is_sentence_end, sentence_end_puncts, pyStrip, pyEndsWith, String.join]

/-- C7 amended: there is no `InvalidAudioError`.  A zero-length input has
duration `0 ≤ chunk_duration` and is handled by the short-file path exactly
like any short file, always returning a successful result (and a negative
duration cannot occur, since the sample count is a length).  The
whole-audio recognizer call is `recog 0 0`. -/
theorem claim_C7_amended (recog : Int → Int → RecResult) (cd od : ℚ)
    (hcd : 0 ≤ cd) :
    transcribe_with_chunking recog 0 cd od
      = (match recog 0 0 with
         | RecResult.timed tokens timestamps =>
             Except.ok (tokens_to_sentences tokens timestamps)
         | RecResult.plain text =>
             Except.ok [{ text := text, start := 0, stop := 0 }]) := by
  rw [transcribe_with_chunking, if_pos (by norm_num [SAMPLE_RATE]; exact hcd)]
  norm_num [SAMPLE_RATE]

/-- Witness for the amended C7: a zero-length input with a plain-text
recognizer yields a single sentence spanning `[0, 0]`, with no error. -/
theorem claim_C7_amended_witness :
    transcribe_with_chunking (fun _ _ => RecResult.plain "z") 0 120 15
      = .ok [{ text := "z", start := 0, stop := 0 }] := by
  have h := claim_C7_amended (fun _ _ => RecResult.plain "z") 120 15 (by norm_num)
  simpa using h

/-- C8: for audio with duration at most `chunk_duration`, the output depends
only on the single whole-audio recognizer call `recog 0 totalSamples` —
windows, stitching and overlap parameters play no role — and it is either
the segmenter applied directly to that call's tokens and timestamps or, for
a plain-text result, a single sentence spanning `[0, duration]`. -/
theorem claim_C8_short_path (recog recog2 : Int → Int → RecResult)
    (totalSamples : Nat) (cd od od2 : ℚ)
    (hd : (totalSamples : ℚ) / (SAMPLE_RATE : ℚ) ≤ cd) :
    (recog 0 (totalSamples : Int) = recog2 0 (totalSamples : Int) →
      transcribe_with_chunking recog totalSamples cd od
        = transcribe_with_chunking recog2 totalSamples cd od2)
    ∧ transcribe_with_chunking recog totalSamples cd od
        = (match recog 0 (totalSamples : Int) with
           | RecResult.timed tokens timestamps =>
               Except.ok (tokens_to_sentences tokens timestamps)
           | RecResult.plain text =>
               Except.ok [{ text := text, start := 0,
                            stop := (totalSamples : ℚ) / (SAMPLE_RATE : ℚ) }]) := by
  constructor
  · intro h
    simp only [transcribe_with_chunking, if_pos hd, h]
  · simp only [transcribe_with_chunking, if_pos hd]

/-- Witness for C8: a one-second file (16000 samples) with a plain-text
recognizer emits the single spanning sentence, and two recognizers agreeing
on the whole-audio call give identical output for different overlap
parameters. -/
theorem claim_C8_short_path_witness :
    transcribe_with_chunking (fun _ _ => RecResult.plain "w") 16000 1 15
      = .ok [{ text := "w", start := 0, stop := 1 }]
    ∧ transcribe_with_chunking (fun _ _ => RecResult.plain "w") 16000 1 15
      = transcribe_with_chunking (fun _ _ => RecResult.plain "w") 16000 1 0 := by
  constructor
  · have h := (claim_C8_short_path (fun _ _ => RecResult.plain "w")
        (fun _ _ => RecResult.plain "w") 16000 1 15 0
        (by norm_num [SAMPLE_RATE])).2
    rw [h]
    norm_num [SAMPLE_RATE]
  · exact (claim_C8_short_path (fun _ _ => RecResult.plain "w")
        (fun _ _ => RecResult.plain "w") 16000 1 15 0
        (by norm_num [SAMPLE_RATE])).1 rfl

/-- C10: in the chunked path, a window whose recognizer result is the
plain-text shape contributes nothing: its text is discarded, the running
stream is left unchanged, the chunk index still advances and the loop
proceeds (or breaks) normally, and the overall run still succeeds — unlike
the short-file path, where a plain-text result is emitted as a single
sentence. -/
theorem claim_C10_plain_window :
    (∀ (text : String) (chunk_start od : ℚ) (chunk_idx : Nat)
        (st : List String × List ℚ),
        stitchWindow (RecResult.plain text) chunk_start od chunk_idx st = st)
    ∧ (∀ (recog : Int → Int → RecResult) (total : Nat) (chunk : Int) (od : ℚ)
        (text : String) (s : Int) (rest : List Int) (chunk_idx : Nat)
        (st : List String × List ℚ),
        recog s (min (s + chunk) (total : Int)) = RecResult.plain text →
        chunkLoop recog total chunk od (s :: rest) chunk_idx st
          = if (total : Int) ≤ min (s + chunk) (total : Int) then st
            else chunkLoop recog total chunk od rest (chunk_idx + 1) st)
    ∧ (∀ (recog : Int → Int → RecResult) (totalSamples : Nat) (cd od : ℚ),
        ¬ ((totalSamples : ℚ) / (SAMPLE_RATE : ℚ) ≤ cd) →
        pyInt (cd * (SAMPLE_RATE : ℚ)) - pyInt (od * (SAMPLE_RATE : ℚ)) ≠ 0 →
        ∃ out, transcribe_with_chunking recog totalSamples cd od = Except.ok out)
    ∧ (∀ (recog : Int → Int → RecResult) (text : String) (totalSamples : Nat)
        (cd od : ℚ),
        (totalSamples : ℚ) / (SAMPLE_RATE : ℚ) ≤ cd →
        recog 0 (totalSamples : Int) = RecResult.plain text →
        transcribe_with_chunking recog totalSamples cd od
          = .ok [{ text := text, start := 0,
                   stop := (totalSamples : ℚ) / (SAMPLE_RATE : ℚ) }]) := by
  refine ⟨fun text cs od idx st => rfl, ?_, ?_, ?_⟩
  · intro recog total chunk od text s rest chunk_idx st hplain
    rw [chunkLoop, hplain]
    rfl
  · intro recog totalSamples cd od hd hstride
    simp only [transcribe_with_chunking, if_neg hd]
    rcases lt_or_gt_of_ne hstride with hneg | hpos
    · rw [pyRange0_of_neg _ _ hneg]
      exact ⟨_, rfl⟩
    · have : ¬ (pyInt (cd * (SAMPLE_RATE : ℚ)) - pyInt (od * (SAMPLE_RATE : ℚ)) < 0) := by
        omega
      unfold pyRange0
      rw [if_neg hstride, if_neg this]
      exact ⟨_, rfl⟩
  · intro recog text totalSamples cd od hd hplain
    simp only [transcribe_with_chunking, if_pos hd, hplain]

/-- Witness for C10: a 187.5-second file whose every window yields a
plain-text result produces an empty (but successful) transcript, while the
same recognizer output on a short file is emitted as a sentence. -/
theorem claim_C10_plain_window_witness :
    stitchWindow (RecResult.plain "hello") 105 15 1 (["a"], [125]) = (["a"], [125])
    ∧ (∃ out, transcribe_with_chunking (fun _ _ => RecResult.plain "hello")
        3000000 120 15 = Except.ok out)
    ∧ transcribe_with_chunking (fun _ _ => RecResult.plain "hello") 16000 120 15
      = .ok [{ text := "hello", start := 0, stop := 1 }] := by
  refine ⟨claim_C10_plain_window.1 "hello" 105 15 1 (["a"], [125]), ?_, ?_⟩
  · exact claim_C10_plain_window.2.2.1 (fun _ _ => RecResult.plain "hello")
      3000000 120 15 (by norm_num [SAMPLE_RATE]) (by norm_num [pyInt, SAMPLE_RATE])
  · have h := claim_C10_plain_window.2.2.2 (fun _ _ => RecResult.plain "hello")
      "hello" 16000 120 15 (by norm_num [SAMPLE_RATE]) rfl
    rw [h]
    norm_num [SAMPLE_RATE]

/-- C2: the segmenter walks the token/timestamp pairs in order; a boundary
at index `i` is declared exactly when the stripped token text ends with
`'.'`, `'!'` or `'?'` or `i` is the last index; at a boundary the emitted
sentence has `end = timestamps[i+1]` when a next timestamp exists and
`timestamps[i] + 0.16` otherwise, and text the stripped concatenation of the
pending tokens — nothing is emitted when that strips to empty, but the
boundary still resets the accumulator and the start; between boundaries the
token is only accumulated.  The worked example from the spec is computed
exactly. -/
theorem claim_C2_segmenter :
    (∀ token : String,
        is_sentence_end token
          = (pyEndsWith (pyStrip token) "." || pyEndsWith (pyStrip token) "!"
              || pyEndsWith (pyStrip token) "?"))
    ∧ (∀ (ntokens : Nat) (timestamps : List ℚ) (token : String) (ts : ℚ)
        (rest : List (String × ℚ)) (i : Nat) (cur : List String) (st : ℚ),
        (is_sentence_end token || (i == ntokens - 1)) = true →
        tts_loop ntokens timestamps ((token, ts) :: rest) i cur st
          = (if pyStrip (String.join (cur ++ [token])) = "" then []
             else [{ text := pyStrip (String.join (cur ++ [token])),
                     start := st,
                     stop := match timestamps[i + 1]? with
                             | some t => t
                             | none => ts + 0.16 }])
            ++ tts_loop ntokens timestamps rest (i + 1) []
                (match timestamps[i + 1]? with
                 | some t => t
                 | none => st))
    ∧ (∀ (ntokens : Nat) (timestamps : List ℚ) (token : String) (ts : ℚ)
        (rest : List (String × ℚ)) (i : Nat) (cur : List String) (st : ℚ),
        (is_sentence_end token || (i == ntokens - 1)) = false →
        tts_loop ntokens timestamps ((token, ts) :: rest) i cur st
          = tts_loop ntokens timestamps rest (i + 1) (cur ++ [token]) st)
    ∧ tokens_to_sentences ["Hello", " world.", " How", " are", " you?"]
        [0, 0.3, 0.9, 1.1, 1.3]
        = [{ text := "Hello world.", start := 0, stop := 0.9 },
           { text := "How are you?", start := 0.9, stop := 1.46 }] := by
  refine ⟨?_, ?_, ?_, ?_⟩
  · intro token
    simp [is_sentence_end, sentence_end_puncts, Bool.or_assoc]
  · intro ntokens timestamps token ts rest i cur st h
    rw [tts_loop]
    simp only [h, if_true]
  · intro ntokens timestamps token ts rest i cur st h
    rw [tts_loop]
    simp only [h, Bool.false_eq_true, if_false]
  · norm_num +decide [tokens_to_sentences, tts_loop, is_sentence_end,
      sentence_end_puncts, pyStrip, pyEndsWith, String.join, Sentence.mk.injEq]

/-- Witness for C2 at concrete segmenter steps: a boundary step on
`" world."` (emitting `"Hello world."` with end `timestamps[2] = 0.9`) and a
non-boundary step on `" How"`. -/
theorem claim_C2_segmenter_witness :
    tts_loop 5 [0, 0.3, 0.9, 1.1, 1.3] [(" world.", 0.3), (" How", 0.9)] 1 ["Hello"] 0
      = [{ text := "Hello world.", start := 0, stop := 0.9 }]
        ++ tts_loop 5 [0, 0.3, 0.9, 1.1, 1.3] [(" How", 0.9)] 2 [] 0.9
    ∧ tts_loop 5 [0, 0.3, 0.9, 1.1, 1.3] [(" How", 0.9)] 2 [] 0.9
      = tts_loop 5 [0, 0.3, 0.9, 1.1, 1.3] [] 3 [" How"] 0.9 := by
  constructor
  · have h := claim_C2_segmenter.2.1 5 [0, 0.3, 0.9, 1.1, 1.3] " world." 0.3
      [(" How", 0.9)] 1 ["Hello"] 0 (by decide)
    rw [h]
    norm_num +decide [pyStrip, String.join]
  · exact claim_C2_segmenter.2.2.1 5 [0, 0.3, 0.9, 1.1, 1.3] " How" 0.9
      [] 2 [] 0.9 (by decide)

theorem tts_loop_text_nonempty (ntokens : Nat) (timestamps : List ℚ) :
    ∀ (l : List (String × ℚ)) (i : Nat) (cur : List String) (st : ℚ)
      (s : Sentence), s ∈ tts_loop ntokens timestamps l i cur st →
      s.text ≠ "" ∧ ∃ raw : String, s.text = pyStrip raw := by
  intro l
  induction l with
  | nil =>
    intro i cur st s h
    simp [tts_loop] at h
  | cons p rest ih =>
    intro i cur st s h
    obtain ⟨token, ts⟩ := p
    simp only [tts_loop] at h
    by_cases hb : (is_sentence_end token || (i == ntokens - 1)) = true
    · simp only [hb, if_true] at h
      rcases List.mem_append.mp h with h1 | h2
      · by_cases ht : pyStrip (String.join (cur ++ [token])) = ""
        · simp [ht] at h1
        · rw [if_neg ht] at h1
          have hs := List.mem_singleton.mp h1
          subst hs
          exact ⟨ht, String.join (cur ++ [token]), rfl⟩
      · exact ih _ _ _ s h2
    · simp only [Bool.not_eq_true] at hb
      simp only [hb, Bool.false_eq_true, if_false] at h
      exact ih _ _ _ s h

/-- C9: every emitted sentence has non-empty (already stripped) text; a
group whose concatenation strips to empty emits nothing, yet its boundary
still resets the accumulator and the start to the timestamp following the
boundary, exactly as in the emitting case. -/
theorem claim_C9_nonempty_text :
    (∀ (tokens : List String) (timestamps : List ℚ) (s : Sentence),
        s ∈ tokens_to_sentences tokens timestamps →
        s.text ≠ "" ∧ ∃ raw : String, s.text = pyStrip raw)
    ∧ (∀ (ntokens : Nat) (timestamps : List ℚ) (token : String) (ts : ℚ)
        (rest : List (String × ℚ)) (i : Nat) (cur : List String) (st : ℚ),
        (is_sentence_end token || (i == ntokens - 1)) = true →
        pyStrip (String.join (cur ++ [token])) = "" →
        tts_loop ntokens timestamps ((token, ts) :: rest) i cur st
          = tts_loop ntokens timestamps rest (i + 1) []
              (match timestamps[i + 1]? with
               | some t => t
               | none => st)) := by
  constructor
  · intro tokens timestamps s h
    rw [tokens_to_sentences] at h
    by_cases hg : (tokens.isEmpty || timestamps.isEmpty) = true
    · simp [hg] at h
    · simp only [Bool.not_eq_true] at hg
      simp only [hg, Bool.false_eq_true, if_false] at h
      exact tts_loop_text_nonempty _ _ _ _ _ _ s h
  · intro ntokens timestamps token ts rest i cur st hb ht
    rw [tts_loop]
    simp only [hb, if_true, ht, if_pos, List.nil_append]

/-- Witness for C9: a concrete emitted sentence has non-empty text, and a
whitespace-only group at a boundary emits nothing while still resetting the
accumulator and start. -/
theorem claim_C9_nonempty_text_witness :
    ("Hi." : String) ≠ ""
    ∧ tts_loop 2 [1, 2] [(" ", 2)] 1 [] 1 = tts_loop 2 [1, 2] [] 2 [] 1 := by
  constructor
  · have h := claim_C9_nonempty_text.1 ["Hi."] [0]
      { text := "Hi.", start := 0, stop := 0.16 }
      (by norm_num +decide [tokens_to_sentences, tts_loop, is_sentence_end,
        sentence_end_puncts, pyStrip, pyEndsWith, String.join])
    exact h.1
  · have h := claim_C9_nonempty_text.2 2 [1, 2] " " 2 [] 1 [] 1
      (by decide) (by decide)
    simpa using h

/-- The test `hasattr(result, 'tokens') and hasattr(result, 'timestamps')` as a
predicate on a recognizer result. -/
def isTimed : RecResult → Bool
  | .timed _ _ => true
  | .plain _ => false

/-- The field `result.tokens` of a timed recognizer result. -/
def resTokens : RecResult → List String
  | .timed tokens _ => tokens
  | .plain _ => []

/-- The field `result.timestamps` of a timed recognizer result. -/
def resTimestamps : RecResult → List ℚ
  | .timed _ timestamps => timestamps
  | .plain _ => []

theorem stitchWindow_zero_overlap (rt : List String) (rts : List ℚ) (cs : ℚ)
    (chunk_idx : Nat) (all_tokens : List String) (all_timestamps : List ℚ)
    (hlen : rt.length = rts.length) (hpos : ∀ t ∈ rts, 0 ≤ t) :
    stitchWindow (RecResult.timed rt rts) cs 0 chunk_idx (all_tokens, all_timestamps)
      = (all_tokens ++ rt, all_timestamps ++ rts.map (fun t => t + cs)) := by
  simp only [stitchWindow]
  by_cases hc : 0 < chunk_idx ∧ all_timestamps ≠ []
  · rw [if_pos hc]
    have hall : acceptedPairs (cs + 0) (all_timestamps.getLastD 0)
        (rt.zip (rts.map (fun t => t + cs))) = rt.zip (rts.map (fun t => t + cs)) := by
      rw [acceptedPairs, List.filter_eq_self]
      intro p hp
      have h2 := (List.of_mem_zip hp).2
      rcases List.mem_map.mp h2 with ⟨t, ht, hpt⟩
      have hle : cs ≤ p.2 := by
        rw [← hpt]
        have := hpos t ht
        linarith
      simp [hle]
    rw [hall, List.map_fst_zip _ _ (by simp [hlen]),
      List.map_snd_zip _ _ (by simp [hlen])]
  · rw [if_neg hc]

/-- C5: with `overlap_duration = 0` and a recognizer that yields timed
results with non-negative window-relative timestamps (and matching lengths)
on every visited window, no token is ever dropped: the running stream after
the loop is exactly the input stream followed by the concatenation, in
window order, of the per-window token/timestamp streams, each window's
timestamps shifted by its start time. -/
theorem claim_C5_no_overlap (recog : Int → Int → RecResult) (total : Nat)
    (chunk : Int) :
    ∀ (l : List Int) (chunk_idx : Nat) (all_tokens : List String)
      (all_timestamps : List ℚ),
      (∀ w ∈ visitedWindows total chunk l,
          isTimed (recog w.1 w.2) = true
          ∧ (resTokens (recog w.1 w.2)).length
              = (resTimestamps (recog w.1 w.2)).length
          ∧ ∀ t ∈ resTimestamps (recog w.1 w.2), 0 ≤ t) →
      chunkLoop recog total chunk 0 l chunk_idx (all_tokens, all_timestamps)
        = (all_tokens ++ (visitedWindows total chunk l).flatMap
              (fun w => resTokens (recog w.1 w.2)),
           all_timestamps ++ (visitedWindows total chunk l).flatMap
              (fun w => (resTimestamps (recog w.1 w.2)).map
                  (fun t => t + (w.1 : ℚ) / (SAMPLE_RATE : ℚ)))) := by
  intro l
  induction l with
  | nil =>
    intro chunk_idx all_tokens all_timestamps _
    simp [chunkLoop, visitedWindows]
  | cons s rest ih =>
    intro chunk_idx all_tokens all_timestamps hw
    have hhead : (s, min (s + chunk) (total : Int))
        ∈ visitedWindows total chunk (s :: rest) := by
      rw [visitedWindows]
      by_cases hbr : (total : Int) ≤ min (s + chunk) (total : Int)
      · simp [hbr]
      · simp [hbr]
    obtain ⟨hT, hlen, hpos⟩ := hw _ hhead
    simp only [chunkLoop]
    cases hrec : recog s (min (s + chunk) (total : Int)) with
    | plain txt =>
      rw [hrec] at hT
      simp [isTimed] at hT
    | timed rt rts =>
      rw [hrec] at hlen hpos
      simp only [resTokens, resTimestamps] at hlen hpos
      rw [stitchWindow_zero_overlap rt rts _ chunk_idx all_tokens
          all_timestamps hlen hpos]
      by_cases hbr : (total : Int) ≤ min (s + chunk) (total : Int)
      · rw [if_pos hbr]
        have hv : visitedWindows total chunk (s :: rest)
            = [(s, min (s + chunk) (total : Int))] := by
          rw [visitedWindows]
          simp [hbr]
        rw [hv]
        simp [hrec, resTokens, resTimestamps]
      · rw [if_neg hbr]
        have hv : visitedWindows total chunk (s :: rest)
            = (s, min (s + chunk) (total : Int)) :: visitedWindows total chunk rest := by
          rw [visitedWindows]
          simp [hbr]
        rw [hv] at hw ⊢
        have hrest : ∀ w ∈ visitedWindows total chunk rest,
            isTimed (recog w.1 w.2) = true
            ∧ (resTokens (recog w.1 w.2)).length
                = (resTimestamps (recog w.1 w.2)).length
            ∧ ∀ t ∈ resTimestamps (recog w.1 w.2), 0 ≤ t := by
          intro w hwmem
          exact hw w (List.mem_cons_of_mem _ hwmem)
        rw [ih (chunk_idx + 1) (all_tokens ++ rt)
            (all_timestamps ++ rts.map (fun t => t + (s : ℚ) / (SAMPLE_RATE : ℚ)))
            hrest]
        simp [hrec, resTokens, resTimestamps, List.flatMap_cons, List.append_assoc]

/-- Recognizer used by the C5 witness: two windows of a 2-second file, each
returning one timed token. -/
def recogC5 : Int → Int → RecResult :=
  fun s _ => if s = 0 then RecResult.timed ["a"] [1] else RecResult.timed ["b"] [2]

/-- Witness for C5: with zero overlap, the two windows' streams are
concatenated unchanged (with the second window's timestamp shifted by its
1-second start). -/
theorem claim_C5_no_overlap_witness :
    chunkLoop recogC5 32000 16000 0 [0, 16000] 0 ([], []) = (["a", "b"], [1, 3]) := by
  have hv : visitedWindows 32000 16000 [0, 16000] = [(0, 16000), (16000, 32000)] := by
    norm_num +decide [visitedWindows]
  have hcond : ∀ w ∈ visitedWindows 32000 16000 [0, 16000],
      isTimed (recogC5 w.1 w.2) = true
      ∧ (resTokens (recogC5 w.1 w.2)).length
          = (resTimestamps (recogC5 w.1 w.2)).length
      ∧ ∀ t ∈ resTimestamps (recogC5 w.1 w.2), 0 ≤ t := by
    intro w hw
    rw [hv] at hw
    simp only [List.mem_cons, List.mem_singleton, List.not_mem_nil, or_false] at hw
    rcases hw with rfl | rfl
    · refine ⟨by norm_num [recogC5, isTimed], by norm_num [recogC5, resTokens, resTimestamps], ?_⟩
      intro t ht
      norm_num [recogC5, resTimestamps] at ht
      rw [ht]
      norm_num
    · refine ⟨by norm_num [recogC5, isTimed], by norm_num [recogC5, resTokens, resTimestamps], ?_⟩
      intro t ht
      norm_num [recogC5, resTimestamps] at ht
      rw [ht]
      norm_num
  have h := claim_C5_no_overlap recogC5 32000 16000 [0, 16000] 0 [] [] hcond
  rw [h, hv]
  norm_num +decide [recogC5, resTokens, resTimestamps, SAMPLE_RATE]

/-- The elements a loop-with-break consumes from a list: everything up to
and including the first element satisfying the break test. -/
def takeUntilIncl {α : Type} (p : α → Bool) : List α → List α
  | [] => []
  | a :: l => if p a then [a] else a :: takeUntilIncl p l

theorem visitedWindows_eq_takeUntilIncl (total : Nat) (chunk : Int) :
    ∀ l : List Int,
      visitedWindows total chunk l
        = (takeUntilIncl (fun s => decide ((total : Int) ≤ min (s + chunk) (total : Int))) l).map
            (fun s => (s, min (s + chunk) (total : Int))) := by
  intro l
  induction l with
  | nil => simp [visitedWindows, takeUntilIncl]
  | cons a l ih =>
    rw [visitedWindows, takeUntilIncl]
    by_cases h : (total : Int) ≤ min (a + chunk) (total : Int)
    · simp [h]
    · simp [h, ih]

theorem takeUntilIncl_append {α : Type} (p : α → Bool) :
    ∀ l : List α, ∃ t, takeUntilIncl p l ++ t = l := by
  intro l
  induction l with
  | nil => exact ⟨[], rfl⟩
  | cons a l ih =>
    rw [takeUntilIncl]
    by_cases h : p a = true
    · rw [if_pos h]
      exact ⟨l, rfl⟩
    · rw [if_neg h]
      obtain ⟨t, ht⟩ := ih
      exact ⟨t, by rw [List.cons_append, ht]⟩

theorem takeUntilIncl_dropLast_not {α : Type} (p : α → Bool) :
    ∀ l : List α, ∀ a ∈ (takeUntilIncl p l).dropLast, p a = false := by
  intro l
  induction l with
  | nil =>
    intro a ha
    simp [takeUntilIncl] at ha
  | cons b l ih =>
    intro a ha
    rw [takeUntilIncl] at ha
    by_cases h : p b = true
    · rw [if_pos h] at ha
      simp at ha
    · rw [if_neg h] at ha
      cases htl : takeUntilIncl p l with
      | nil =>
        rw [htl] at ha
        simp at ha
      | cons c cs =>
        rw [htl, List.dropLast_cons₂] at ha
        rcases List.mem_cons.mp ha with rfl | ha2
        · exact Bool.not_eq_true _ ▸ (by simpa using h)
        · exact ih a (by rw [htl]; exact ha2)

theorem takeUntilIncl_getLast?_sat {α : Type} (p : α → Bool) :
    ∀ (l : List α) (a : α), a ∈ l → p a = true →
      ∃ x, (takeUntilIncl p l).getLast? = some x ∧ p x = true := by
  intro l
  induction l with
  | nil =>
    intro a ha _
    simp at ha
  | cons b l ih =>
    intro a ha hpa
    rw [takeUntilIncl]
    by_cases h : p b = true
    · rw [if_pos h]
      exact ⟨b, rfl, h⟩
    · rw [if_neg h]
      have ha2 : a ∈ l := by
        rcases List.mem_cons.mp ha with rfl | h2
        · exact absurd hpa h
        · exact h2
      obtain ⟨x, hx1, hx2⟩ := ih a ha2 hpa
      refine ⟨x, ?_, hx2⟩
      cases htl : takeUntilIncl p l with
      | nil =>
        rw [htl] at hx1
        simp at hx1
      | cons c cs =>
        rw [htl] at hx1
        rw [List.getLast?_cons_cons]
        exact hx1

/-- C3: for positive stride (at most the chunk size) and non-empty audio,
the chunked loop visits windows with starts `0, stride, 2*stride, ...` and
`end = min(start + chunk_samples, total_samples)`, every window before the
last has `end < total_samples`, and the last visited window has `end =
total_samples` (the loop breaks there even if the range arithmetic would
produce more starts); the 300-second / 120-second-chunk / 15-second-overlap
example yields exactly the three windows starting at 0, 105 and 210 seconds
and ending at 120, 225 and 300 seconds. -/
theorem claim_C3_planner :
    (∀ (total : Nat) (chunk stride : Int) (starts : List Int),
      0 < stride → stride ≤ chunk → 0 < total →
      pyRange0 total stride = .ok starts →
      (∀ i : Nat, i < (visitedWindows total chunk starts).length →
          (visitedWindows total chunk starts)[i]?
            = some ((i : Int) * stride, min ((i : Int) * stride + chunk) (total : Int)))
      ∧ (∃ w, (visitedWindows total chunk starts).getLast? = some w
            ∧ w.2 = (total : Int))
      ∧ (∀ i : Nat, i + 1 < (visitedWindows total chunk starts).length →
          ∃ w, (visitedWindows total chunk starts)[i]? = some w
            ∧ w.2 < (total : Int)))
    ∧ (pyInt ((120 : ℚ) * (SAMPLE_RATE : ℚ)) = 1920000
      ∧ pyInt ((15 : ℚ) * (SAMPLE_RATE : ℚ)) = 240000
      ∧ pyRange0 4800000 (1920000 - 240000) = .ok [0, 1680000, 3360000]
      ∧ visitedWindows 4800000 1920000 [0, 1680000, 3360000]
          = [(0, 1920000), (1680000, 3600000), (3360000, 4800000)]
      ∧ [(0, 1920000), (1680000, 3600000), (3360000, 4800000)].map
            (fun w => ((w.1 : ℚ) / (SAMPLE_RATE : ℚ), (w.2 : ℚ) / (SAMPLE_RATE : ℚ)))
          = [(0, 120), (105, 225), (210, 300)]) := by
  constructor
  · intro total chunk stride starts h1 h2 h3 hr
    have hstarts : starts = (List.range ((total + stride.toNat - 1) / stride.toNat)).map
        (fun k : Nat => (k : Int) * stride) := by
      unfold pyRange0 at hr
      rw [if_neg (by omega), if_neg (by omega)] at hr
      exact ((Except.ok.injEq _ _).mp hr).symm
    set st := stride.toNat with hstdef
    set n := (total + st - 1) / st with hndef
    have hstcast : (st : Int) = stride := Int.toNat_of_nonneg h1.le
    have hstpos : 0 < st := by omega
    have hn1 : 1 ≤ n := by
      rw [hndef, Nat.le_div_iff_mul_le hstpos]
      omega
    have hnst : total ≤ st * n := by
      have hmod := Nat.div_add_mod (total + st - 1) st
      have hmodlt : (total + st - 1) % st < st := Nat.mod_lt _ hstpos
      rw [← hndef] at hmod
      omega
    have hcast : (total : Int) ≤ (n : Int) * stride := by
      calc (total : Int) ≤ ((st * n : Nat) : Int) := by exact_mod_cast hnst
        _ = (st : Int) * (n : Int) := by push_cast; ring
        _ = (n : Int) * stride := by rw [hstcast]; ring
    have hcsub : (((n - 1 : Nat)) : Int) = (n : Int) - 1 := by
      omega
    have hlast_le : (total : Int) ≤ (((n - 1 : Nat)) : Int) * stride + chunk := by
      rw [hcsub]
      have hexp : ((n : Int) - 1) * stride = (n : Int) * stride - stride := by ring
      rw [hexp]
      linarith
    have hlen_starts : starts.length = n := by
      rw [hstarts, List.length_map, List.length_range]
    have hvw := visitedWindows_eq_takeUntilIncl total chunk starts
    obtain ⟨tail, htail⟩ := takeUntilIncl_append
        (fun s => decide ((total : Int) ≤ min (s + chunk) (total : Int))) starts
    have htULen : (takeUntilIncl
        (fun s => decide ((total : Int) ≤ min (s + chunk) (total : Int))) starts).length
        ≤ starts.length := by
      calc (takeUntilIncl
            (fun s => decide ((total : Int) ≤ min (s + chunk) (total : Int))) starts).length
          ≤ (takeUntilIncl
            (fun s => decide ((total : Int) ≤ min (s + chunk) (total : Int))) starts).length
            + tail.length := by omega
        _ = starts.length := by rw [← List.length_append, htail]
    have hgetTU : ∀ i : Nat, i < (takeUntilIncl
        (fun s => decide ((total : Int) ≤ min (s + chunk) (total : Int))) starts).length →
        (takeUntilIncl
          (fun s => decide ((total : Int) ≤ min (s + chunk) (total : Int))) starts)[i]?
          = some ((i : Int) * stride) := by
      intro i hi
      have h1' : (takeUntilIncl
          (fun s => decide ((total : Int) ≤ min (s + chunk) (total : Int))) starts)[i]?
          = starts[i]? := by
        conv_rhs => rw [← htail]
        rw [List.getElem?_append_left hi]
      rw [h1', hstarts, List.getElem?_map, List.getElem?_range (by omega)]
      rfl
    refine ⟨?_, ?_, ?_⟩
    · intro i hi
      rw [hvw, List.getElem?_map]
      have hi2 : i < (takeUntilIncl
          (fun s => decide ((total : Int) ≤ min (s + chunk) (total : Int))) starts).length := by
        rw [hvw, List.length_map] at hi
        exact hi
      rw [hgetTU i hi2]
      rfl
    · have hmem : (((n - 1 : Nat)) : Int) * stride ∈ starts := by
        rw [hstarts]
        exact List.mem_map_of_mem _ (List.mem_range.mpr (by omega))
      have hsat : (fun s => decide ((total : Int) ≤ min (s + chunk) (total : Int)))
          ((((n - 1 : Nat)) : Int) * stride) = true := by
        simp only [decide_eq_true_eq]
        exact le_min hlast_le le_rfl
      obtain ⟨x, hx1, hx2⟩ := takeUntilIncl_getLast?_sat
          (fun s => decide ((total : Int) ≤ min (s + chunk) (total : Int))) starts _ hmem hsat
      refine ⟨(x, min (x + chunk) (total : Int)), ?_, ?_⟩
      · rw [hvw, List.getLast?_map, hx1]
        rfl
      · simp only [decide_eq_true_eq] at hx2
        exact le_antisymm (min_le_right _ _) hx2
    · intro i hi
      have hi1 : i < (visitedWindows total chunk starts).length := by omega
      have hi2 : i < (takeUntilIncl
          (fun s => decide ((total : Int) ≤ min (s + chunk) (total : Int))) starts).length := by
        rw [hvw, List.length_map] at hi1
        exact hi1
      refine ⟨((i : Int) * stride, min ((i : Int) * stride + chunk) (total : Int)), ?_, ?_⟩
      · rw [hvw, List.getElem?_map]
        rw [hgetTU i hi2]
        rfl
      · have hdrop : ((i : Int) * stride) ∈ (takeUntilIncl
            (fun s => decide ((total : Int) ≤ min (s + chunk) (total : Int))) starts).dropLast := by
          have hlendrop : i < ((takeUntilIncl
              (fun s => decide ((total : Int) ≤ min (s + chunk) (total : Int))) starts).dropLast).length := by
            rw [List.length_dropLast]
            rw [hvw, List.length_map] at hi
            omega
          have hgd := List.getElem_dropLast (takeUntilIncl
              (fun s => decide ((total : Int) ≤ min (s + chunk) (total : Int))) starts) i hlendrop
          have hv : (takeUntilIncl
              (fun s => decide ((total : Int) ≤ min (s + chunk) (total : Int))) starts)[i]
              = (i : Int) * stride := by
            have := hgetTU i hi2
            rw [List.getElem?_eq_getElem hi2] at this
            exact Option.some.inj this
          rw [hv] at hgd
          rw [← hgd]
          exact List.getElem_mem hlendrop
        have := takeUntilIncl_dropLast_not
            (fun s => decide ((total : Int) ≤ min (s + chunk) (total : Int))) starts
            _ hdrop
        simp only [decide_eq_false_iff_not, not_le] at this
        exact this
  · refine ⟨by norm_num [pyInt, SAMPLE_RATE], by norm_num [pyInt, SAMPLE_RATE],
      by norm_num +decide [pyRange0], by norm_num +decide [visitedWindows],
      by norm_num [SAMPLE_RATE]⟩

/-- Witness for C3 at the 300-second example: window 1 of the visited list
is `(1680000, 3600000)` (105 s to 225 s), and the last visited window ends
exactly at the total sample count. -/
theorem claim_C3_planner_witness :
    (visitedWindows 4800000 1920000 [0, 1680000, 3360000])[1]?
      = some (1680000, 3600000)
    ∧ (∃ w, (visitedWindows 4800000 1920000 [0, 1680000, 3360000]).getLast?
          = some w ∧ w.2 = ((4800000 : Nat) : Int)) := by
  have h := claim_C3_planner.1 4800000 1920000 1680000 [0, 1680000, 3360000]
    (by norm_num) (by norm_num) (by norm_num) (by norm_num +decide [pyRange0])
  constructor
  · have h1 := h.1 1 (by norm_num +decide [visitedWindows])
    simpa using h1
  · exact h.2.1
